import Mathlib

/-!
Verification development for the MLP pipeline repository.

The definitions below are a shallow embedding of the two core subsystems:

* the normalized storage sink (`src/pipeline/sink/database_sink.py`), modelled
  as pure state passing over an explicit database state, with SQLite's
  per-entity transaction (BEGIN / COMMIT / ROLLBACK + re-raise) modelled by an
  `Except` result that leaves the prior state untouched on error; and
* the field-extraction engine (`src/pipeline/transform/pdf_transformer.py`),
  modelled over a small executable backtracking matcher for the exact regular
  expressions the source uses.

Machine integers are modelled by `Int`/`Nat` (no overflow is relevant here:
SQLite stores arbitrary Python ints and the extractor parses decimal digits).
-/

namespace MLP

/-! ## Storage sink data model (database_sink.py)

Schema from `DatabaseSink.setup`:
  firms(firm_crd_nb INTEGER PRIMARY KEY, sec_nb, business_name,
        full_legal_name, address, phone_number, employee_count, signatory, ...)
  compensation_arrangements(id, firm_crd_nb, arrangement)
  client_types(id, firm_crd_nb, client_type, aum_value)
  private_funds(id, firm_crd_nb, fund_name, fund_id, UNIQUE(firm_crd_nb, fund_id))

Child tables are modelled as row lists in insertion order (SQLite rowid order);
the AUTOINCREMENT id and the created_at/updated_at timestamps carry no
information any claim depends on and are not modelled.  The firms PRIMARY KEY
is enforced by SQLite; here it is an invariant (`FirmsWF`) preserved by the
upsert. -/

/-- Scalar columns of one `firms` row (every scalar is nullable: `data.get`
returns `None` for a missing key). -/
structure FirmRow where
  sec_nb : Option String
  business_name : Option String
  full_legal_name : Option String
  address : Option String
  phone_number : Option String
  employee_count : Option Int
  signatory : Option String
deriving Repr, DecidableEq

/-- The `compensation_arrangements` value accepted by the write path:
`Union[str, list]` in the source; any other runtime type falls through to the
empty list. -/
inductive CompInput where
  | ofList (l : List String)
  | ofStr (s : String)
  | otherType
deriving Repr, DecidableEq

/-- An AUM value accepted by `_write_client_types`: `Union[int, str]`. -/
inductive AumInput where
  | int (n : Int)
  | str (s : String)
deriving Repr, DecidableEq

/-- One record of the `firm_data` mapping passed to `DatabaseSink.write`.
A child key that is absent from the Python dict is `none` here; `write` reads
it with `data.get(key, default)`. -/
structure FirmRecord where
  scalars : FirmRow
  compensation_arrangements : Option CompInput
  client_types : Option (List (String × AumInput))
  private_funds : Option (List (String × String))
deriving Repr, DecidableEq

/-- A `compensation_arrangements` row: (firm_crd_nb, arrangement). -/
abbrev CompRow : Type := Int × String

/-- A `client_types` row: (firm_crd_nb, client_type, aum_value). -/
abbrev CTRow : Type := Int × String × Int

/-- A `private_funds` row: (firm_crd_nb, fund_name, fund_id). -/
abbrev FundRow : Type := Int × String × String

/-- The whole database state. -/
structure DBState where
  firms : List (Int × FirmRow)
  compensation_arrangements : List CompRow
  client_types : List CTRow
  private_funds : List FundRow
deriving Repr, DecidableEq

/-- The firms PRIMARY KEY invariant maintained by SQLite. -/
def FirmsWF (db : DBState) : Prop := (db.firms.map Prod.fst).Nodup

/-! ### Input normalization -/

/-- Whitespace characters stripped by Python `str.strip()` (ASCII range). -/
def pySpace (c : Char) : Bool :=
  (c == ' ') || (c == '\t') || (c == '\n') || (c == '\r') || (c == '\x0b') || (c == '\x0c')

/-- Python `str.strip()` on a character list. -/
def pyStripList (cs : List Char) : List Char :=
  ((cs.dropWhile pySpace).reverse.dropWhile pySpace).reverse

/-- Python `str.strip()`. -/
def pyStrip (s : String) : String := ⟨pyStripList s.toList⟩

/-- Python `str.split(sep)` for a one-character separator: no collapsing of
adjacent separators, and the split of the empty string is `[""]`. -/
def splitOnChar (sep : Char) : List Char → List (List Char)
  | [] => [[]]
  | c :: rest =>
    match splitOnChar sep rest with
    | [] => [[c]]
    | g :: gs => if c = sep then [] :: g :: gs else (c :: g) :: gs

/-- Normalization in `_write_compensation_arrangements`: a list keeps its
string members stripped; a string is split on commas, stripped, and empties
dropped; anything else becomes the empty list. -/
def stripArrangements : CompInput → List String
  | .ofList l => l.map pyStrip
  | .ofStr s => ((splitOnChar ',' s.toList).map (fun g => pyStrip ⟨g⟩)).filter (fun a => a ≠ "")
  | .otherType => []

/-- Decimal digits, possibly with single underscores between digits, as
accepted by Python `int()` after the first digit. -/
def pyIntTail : List Char → Bool
  | [] => true
  | c :: rest =>
    if c.isDigit then pyIntTail rest
    else if c = '_' then
      match rest with
      | [] => false
      | d :: _ => d.isDigit && pyIntTail rest
    else false

/-- Value of a digit run, skipping grouping underscores. -/
def digitsVal (cs : List Char) : Nat :=
  cs.foldl (fun acc c => if c = '_' then acc else acc * 10 + (c.toNat - '0'.toNat)) 0

/-- Decides whether a character list is a nonempty digit run with legal
underscore grouping. -/
def pyDigitRun : List Char → Bool
  | [] => false
  | c :: rest => c.isDigit && pyIntTail rest

/-- Python `int(s)` on a decimal string: surrounding whitespace stripped, an
optional sign, then a nonempty digit run (underscore grouping allowed);
`none` models the `ValueError` branch. -/
def parsePyInt (s : String) : Option Int :=
  let cs := pyStripList s.toList
  match cs with
  | '-' :: rest => if pyDigitRun rest then some (-(digitsVal rest : Int)) else none
  | '+' :: rest => if pyDigitRun rest then some ((digitsVal rest : Int)) else none
  | rest => if pyDigitRun rest then some ((digitsVal rest : Int)) else none

/-- Normalization in `_write_client_types`: an int passes through; a string
has all commas removed and is parsed, defaulting to 0 on failure. -/
def normalizeAum : AumInput → Int
  | .int n => n
  | .str s => (parsePyInt ⟨s.toList.filter (fun c => c ≠ ',')⟩).getD 0

/-! ### Write path -/

/-- The `INSERT ... ON CONFLICT(firm_crd_nb) DO UPDATE` upsert of
`DatabaseSink.write`: every scalar column overwritten on conflict, row
appended otherwise. -/
def upsertFirm (firms : List (Int × FirmRow)) (crd : Int) (row : FirmRow) :
    List (Int × FirmRow) :=
  if firms.any (fun p => p.1 == crd) then
    firms.map (fun p => if p.1 == crd then (crd, row) else p)
  else firms ++ [(crd, row)]

/-- Body of `_write_compensation_arrangements`: delete all rows for this firm,
then insert the normalized list. -/
def writeCompensationArrangements (rows : List CompRow) (crd : Int)
    (arrangements : CompInput) : List CompRow :=
  rows.filter (fun r => r.1 != crd) ++
    (stripArrangements arrangements).map (fun a => (crd, a))

/-- Body of `_write_client_types`: delete all rows for this firm, then insert
the pairs with normalized AUM values. -/
def writeClientTypes (rows : List CTRow) (crd : Int)
    (cts : List (String × AumInput)) : List CTRow :=
  rows.filter (fun r => r.1 != crd) ++
    cts.map (fun p => (crd, p.1, normalizeAum p.2))

/-- Insertion loop of `_write_private_funds`: each INSERT checks the
UNIQUE(firm_crd_nb, fund_id) constraint against the current table state and
raises sqlite3.IntegrityError (modelled as `Except.error`) on violation. -/
def writeFundsGo (crd : Int) (acc : List FundRow) :
    List (String × String) → Except String (List FundRow)
  | [] => .ok acc
  | p :: rest =>
    if acc.any (fun r => r.1 == crd && r.2.2 == p.2) then
      .error "UNIQUE constraint failed: private_funds.firm_crd_nb, private_funds.fund_id"
    else writeFundsGo crd (acc ++ [(crd, p.1, p.2)]) rest

/-- Body of `_write_private_funds`: delete all rows for this firm, then insert
each (fund_name, fund_id) pair. -/
def writePrivateFunds (rows : List FundRow) (crd : Int)
    (pfs : List (String × String)) : Except String (List FundRow) :=
  writeFundsGo crd (rows.filter (fun r => r.1 != crd)) pfs

/-- One iteration of `DatabaseSink.write` for a single firm: the body of the
BEGIN/COMMIT block.  A returned `Except.error` models the exception that
triggers ROLLBACK in the caller; the caller then keeps the prior state. -/
def writeFirm (db : DBState) (crd : Int) (r : FirmRecord) :
    Except String DBState :=
  let firms1 := upsertFirm db.firms crd r.scalars
  let comp1 := writeCompensationArrangements db.compensation_arrangements crd
    (r.compensation_arrangements.getD (.ofStr ""))
  let ct1 := writeClientTypes db.client_types crd (r.client_types.getD [])
  match writePrivateFunds db.private_funds crd (r.private_funds.getD []) with
  | .error e => .error e
  | .ok funds1 => .ok ⟨firms1, comp1, ct1, funds1⟩

/-- `DatabaseSink.write` over the whole `firm_data` mapping: one transaction
per firm; on a failure the failing firm's transaction is rolled back (the
state reverts to just before its BEGIN) and the exception is re-raised, so
processing stops with the committed prefix kept.  The result is the final
state together with the propagated error, if any. -/
def write (db : DBState) : List (Int × FirmRecord) → DBState × Option String
  | [] => (db, none)
  | (crd, r) :: rest =>
    match writeFirm db crd r with
    | .ok db1 => write db1 rest
    | .error e => (db, some e)

/-! ### Read path -/

/-- Rows of `compensation_arrangements` for one firm, in insertion order
(`fetch_compensation`). -/
def fetch_compensation (db : DBState) (crd : Int) : List String :=
  (db.compensation_arrangements.filter (fun r => r.1 == crd)).map (fun r => r.2)

/-- Python dict insertion: overwrite the value when the key exists, append
otherwise. -/
def dictInsert {α : Type} (l : List (String × α)) (k : String) (v : α) :
    List (String × α) :=
  if l.any (fun p => p.1 == k) then
    l.map (fun p => if p.1 == k then (k, v) else p)
  else l ++ [(k, v)]

/-- The dict comprehension of `fetch_client_types`: one entry per row, later
rows overwriting earlier ones with the same client_type. -/
def fetch_client_types (db : DBState) (crd : Int) : List (String × Int) :=
  ((db.client_types.filter (fun r => r.1 == crd)).map
      (fun r => (r.2.1, r.2.2))).foldl (fun acc p => dictInsert acc p.1 p.2) []

/-- The list of `{"name": fund_name, "identification_number": fund_id}`
records of `fetch_private_funds`, as (name, identification_number) pairs. -/
def fetch_private_funds (db : DBState) (crd : Int) : List (String × String) :=
  (db.private_funds.filter (fun r => r.1 == crd)).map (fun r => (r.2.1, r.2.2))

/-! ### Row projections used by the statements -/

/-- Firm rows stored under one key. -/
def firmRowsFor (db : DBState) (crd : Int) : List (Int × FirmRow) :=
  db.firms.filter (fun p => p.1 == crd)

/-- Compensation rows stored under one key. -/
def compRowsFor (db : DBState) (crd : Int) : List CompRow :=
  db.compensation_arrangements.filter (fun r => r.1 == crd)

/-- Client-type rows stored under one key. -/
def ctRowsFor (db : DBState) (crd : Int) : List CTRow :=
  db.client_types.filter (fun r => r.1 == crd)

/-- Private-fund rows stored under one key. -/
def fundRowsFor (db : DBState) (crd : Int) : List FundRow :=
  db.private_funds.filter (fun r => r.1 == crd)

/-- Fund identifiers already stored for one firm, as seen by the UNIQUE
constraint check. -/
def crdIds (crd : Int) (acc : List FundRow) : List String :=
  (acc.filter (fun r => r.1 == crd)).map (fun r => r.2.2)

/-! ## Field extraction engine (pdf_transformer.py)

The transformer extracts fields with `re.search`/`re.findall` over a small
fragment of regular expressions: literals (case-sensitive, or case-insensitive
under `re.IGNORECASE`), quantified character classes (`\\s*`, `[...]+`, `.+?`,
`.*?`, greedy or lazy), trailing non-capturing alternations, `$` and `\\Z`.
That fragment is embedded as a token list and run by an executable
backtracking matcher with the same preference order as Python's engine:
leftmost match position, greedy quantifiers longest-first, lazy quantifiers
shortest-first, alternatives left to right.  The matcher recurses on explicit
fuel so that it evaluates in the kernel; every recursive call strictly
decreases `toksSize`, so the fuel `toksSize toks + 1` used by `matchToks`
never runs out. -/

inductive Tok where
  | lit (cs : List Char)
  | litCI (cs : List Char)
  | cls (p : Char → Bool) (atLeastOne : Bool) (greedy : Bool) (capture : Bool)
  | alt2 (b1 b2 : List Tok)
  | dollar
  | eos

mutual

def tokSize : Tok → Nat
  | .alt2 b1 b2 => 1 + toksSize b1 + toksSize b2
  | _ => 1

def toksSize : List Tok → Nat
  | [] => 0
  | t :: ts => tokSize t + toksSize ts

end

/-- Case folding used for `re.IGNORECASE` literal comparison. -/
def lowerEqCI (a b : Char) : Bool := a.toLower == b.toLower

/-- Case-insensitive prefix test. -/
def isPrefixCI : List Char → List Char → Bool
  | [], _ => true
  | _ :: _, [] => false
  | a :: as, b :: bs => lowerEqCI a b && isPrefixCI as bs

/-- Candidate lengths for a quantified class over a run of `runLen` matching
characters, in the engine's preference order. -/
def candLens (atLeastOne greedy : Bool) (runLen : Nat) : List Nat :=
  let lower : Nat := if atLeastOne then 1 else 0
  let base := (List.range (runLen + 1)).filter (fun k => lower ≤ k)
  if greedy then base.reverse else base

/-- First hit of `f` over a list, in order. -/
def firstSome {α β : Type} (f : α → Option β) : List α → Option β
  | [] => none
  | a :: as =>
    match f a with
    | some b => some b
    | none => firstSome f as

/-- Matcher core: matches a token list against the head of `s`, returning the
captured groups (in group order) and the unconsumed remainder.  `dollar`
matches at the end or just before a final newline, `eos` only at the end. -/
def matchFuel : Nat → List Tok → List Char → Option (List (List Char) × List Char)
  | _, [], s => some ([], s)
  | 0, _ :: _, _ => none
  | fuel+1, .lit cs :: rest, s =>
    if cs.isPrefixOf s then matchFuel fuel rest (s.drop cs.length) else none
  | fuel+1, .litCI cs :: rest, s =>
    if isPrefixCI cs s then matchFuel fuel rest (s.drop cs.length) else none
  | fuel+1, .dollar :: rest, s =>
    if s = [] ∨ s = ['\n'] then matchFuel fuel rest s else none
  | fuel+1, .eos :: rest, s => if s = [] then matchFuel fuel rest s else none
  | fuel+1, .alt2 b1 b2 :: rest, s =>
    match matchFuel fuel (b1 ++ rest) s with
    | some r => some r
    | none => matchFuel fuel (b2 ++ rest) s
  | fuel+1, .cls p a g c :: rest, s =>
    firstSome (fun k =>
      match matchFuel fuel rest (s.drop k) with
      | some (gs, rem) => some ((if c then s.take k :: gs else gs), rem)
      | none => none)
      (candLens a g ((s.takeWhile p).length))

/-- Anchored match with sufficient fuel. -/
def matchToks (toks : List Tok) (s : List Char) :
    Option (List (List Char) × List Char) :=
  matchFuel (toksSize toks + 1) toks s

/-- `re.search`: try the anchored match at each position, left to right. -/
def searchToks (toks : List Tok) : List Char → Option (List (List Char) × List Char)
  | [] => matchToks toks []
  | c :: s2 =>
    match matchToks toks (c :: s2) with
    | some r => some r
    | none => searchToks toks s2

/-- Iterated non-overlapping search, on fuel (`s.length + 1` always
suffices since the remainder shrinks at every kept step). -/
def searchAllFuel : Nat → List Tok → List Char → List (List (List Char))
  | 0, _, _ => []
  | fuel+1, toks, s =>
    match searchToks toks s with
    | none => []
    | some (gs, rem) =>
      if rem.length < s.length then gs :: searchAllFuel fuel toks rem else [gs]

/-- `re.findall`: the group tuples of successive non-overlapping matches. -/
def searchAll (toks : List Tok) (s : List Char) : List (List (List Char)) :=
  searchAllFuel (s.length + 1) toks s

/-! ### Character classes used by the transformer's patterns -/

/-- The class of `.` under `re.DOTALL`. -/
def anyChar (_ : Char) : Bool := true

/-- The class `[^\\n]`. -/
def notNL (c : Char) : Bool := !(c == '\n')

/-- The class `[\\d-]`. -/
def digitOrDash (c : Char) : Bool := c.isDigit || (c == '-')

/-- The class `[\\d,]`. -/
def digitOrComma (c : Char) : Bool := c.isDigit || (c == ',')

/-- The class `[^\\n$]`. -/
def notNLDollar (c : Char) : Bool := !(c == '\n') && !(c == '$')

/-! ### The generic first-match-wins field resolver -/

/-- Group 1 of a search hit. -/
def reGroup1 (toks : List Tok) (text : List Char) : Option (List Char) :=
  (searchToks toks text).bind (fun r => r.1.head?)

/-- `PdfTransformer._extract_with_regex`: `re.search` (the transformer passes
`re.IGNORECASE`, reflected here by `litCI` literals in the encoded patterns),
then `match.group(1).strip()`, `None` when there is no match. -/
def extract_with_regex (toks : List Tok) (text : List Char) : Option String :=
  (reGroup1 toks text).map (fun g => (⟨pyStripList g⟩ : String))

/-- The uniform pattern loop of the `_extract_*` field functions: evaluate the
ordered pattern list, return the first truthy (non-empty) stripped capture. -/
def resolveField : List (List Tok) → List Char → Option String
  | [], _ => none
  | p :: rest, text =>
    match extract_with_regex p text with
    | some v => if v ≠ "" then some v else resolveField rest text
    | none => resolveField rest text

/-! ### `_extract_sec_number` pattern table -/

/-- Pattern `SEC file number:\\s*([\\d-]+)` (IGNORECASE). -/
def secP1 : List Tok :=
  [.litCI "SEC file number:".toList, .cls pySpace false true false,
   .cls digitOrDash true true true]

/-- Pattern `SEC File Number:\\s*([\\d-]+)` (IGNORECASE). -/
def secP2 : List Tok :=
  [.litCI "SEC File Number:".toList, .cls pySpace false true false,
   .cls digitOrDash true true true]

/-- Pattern `you are registered with the SEC as an investment adviser, your
SEC file number:\\s*([\\d-]+)` (IGNORECASE). -/
def secP3 : List Tok :=
  [.litCI "you are registered with the SEC as an investment adviser, your SEC file number:".toList,
   .cls pySpace false true false, .cls digitOrDash true true true]

/-- Pattern `your SEC file number:\\s*([\\d-]+)` (IGNORECASE). -/
def secP4 : List Tok :=
  [.litCI "your SEC file number:".toList, .cls pySpace false true false,
   .cls digitOrDash true true true]

/-- The ordered rule table of `_extract_sec_number`. -/
def secPatterns : List (List Tok) := [secP1, secP2, secP3, secP4]

/-- `PdfTransformer._extract_sec_number`. -/
def extract_sec_number (text : List Char) : Option String :=
  resolveField secPatterns text

/-! ### Checkbox classifier (`_is_checkbox_checked`)

The rasterized region is its grayscale sample array (one value in 0..255 per
pixel).  The source computes `np.sum(img_array < threshold) / img_array.size
> 0.12` in floating point; for any region of fewer than about 10^15 pixels
the rational value `count/size` is never within half an ulp of the double
nearest `0.12` without being exactly `3/25`, so the exact rational comparison
below decides identically. -/
def isCheckboxChecked (pixels : List Nat) (threshold : Nat := 150) : Bool :=
  decide (((pixels.countP (fun v => v < threshold) : ℚ) / (pixels.length : ℚ)) > 12 / 100)

/-! ### Compensation arrangements (`_extract_compensation_arrangements`) -/

/-- A fitz rectangle. -/
structure Rect where
  x0 : ℚ
  y0 : ℚ
  x1 : ℚ
  y1 : ℚ

/-- A rendered page handle: text search returning hit rectangles, and
grayscale rasterization of a clipped region (the `get_pixmap(matrix=2x2,
clip=rect, colorspace=gray)` samples). -/
structure Page where
  searchFor : String → List Rect
  pixmapGray : Rect → List Nat

/-- The page scan: the first page on which `search_for("Compensation
Arrangements")` returns any rectangle; `none` when no page has the anchor
(the Python variable `page` stays `None`). -/
def findAnchorPage : List Page → Option Page
  | [] => none
  | p :: rest =>
    if (p.searchFor "Compensation Arrangements").isEmpty then findAnchorPage rest
    else some p

/-- The fixed `compensation_options` label table. -/
def compensationOptions : List (String × String) := [
  ("A percentage of assets under your management", "(1)"),
  ("Hourly charges", "(2)"),
  ("Subscription fees (for a newsletter or periodical)", "(3)"),
  ("Fixed fees (other than subscription fees)", "(4)"),
  ("Commissions", "(5)"),
  ("Performance-based fees", "(6)"),
  ("Other (specify):", "(7)")]

/-- `_extract_compensation_arrangements`: when no page carries the anchor
phrase, the source calls `page.search_for(...)` on `None` and raises
`AttributeError` (modelled as `Except.error`); otherwise each label found on
the page has a checkbox region derived by the fixed offsets and is kept if
classified checked. -/
def extractCompensationArrangements (doc : List Page) : Except String (List String) :=
  match findAnchorPage doc with
  | none => .error "AttributeError: NoneType object has no attribute search_for"
  | some page =>
    .ok (compensationOptions.foldl (fun acc lp =>
      match page.searchFor lp.1 with
      | [] => acc
      | rect :: _ =>
        let cb : Rect := ⟨rect.x0 - 44, rect.y0 + 1, rect.x0 - 38, rect.y1 - 1⟩
        if isCheckboxChecked (page.pixmapGray cb) 150 then acc ++ [lp.1] else acc) [])

/-! ### Client types (`_extract_client_types`) -/

/-- Section pattern `Type of Client.*?under Management(.*?)(?:Item|Section|\\Z)`
(DOTALL). -/
def sectionToks1 : List Tok :=
  [.lit "Type of Client".toList, .cls anyChar false false false,
   .lit "under Management".toList, .cls anyChar false false true,
   .alt2 [.lit "Item".toList] [.alt2 [.lit "Section".toList] [.eos]]]

/-- Fallback section pattern `Type of Client(.*?)(?:Item|\\Z)` (DOTALL). -/
def sectionToks2 : List Tok :=
  [.lit "Type of Client".toList, .cls anyChar false false true,
   .alt2 [.lit "Item".toList] [.eos]]

/-- The captured client section, or `none` (the `return {}` branch). -/
def clientSection (text : List Char) : Option (List Char) :=
  match searchToks sectionToks1 text with
  | some (g :: _, _) => some g
  | _ =>
    match searchToks sectionToks2 text with
    | some (g :: _, _) => some g
    | _ => none

/-- The fixed `client_mapping` letter table. -/
def clientLetters : List (Char × String) := [
  ('a', "Individuals"), ('b', "High Net Worth Individuals"),
  ('c', "Banking Institutions"), ('d', "Investment Companies"),
  ('e', "Business Development Companies"), ('f', "Pooled Investment Vehicles"),
  ('g', "Pension Plans"), ('h', "Charitable Organizations"),
  ('i', "State Entities"), ('j', "Other Advisers"), ('k', "Insurance Companies"),
  ('l', "Sovereign Wealth Funds"), ('m', "Corporations"), ('n', "Other")]

/-- Span pattern `\\(x\\)(.*?)(?:\\(y\\))` for a letter with successor. -/
def letterToks (letter next : Char) : List Tok :=
  [.lit ['(', letter, ')'], .cls anyChar false false true, .lit ['(', next, ')']]

/-- Span pattern `\\(n\\)(.*?)(?:Item|\\Z)` for the last letter. -/
def lastLetterToks : List Tok :=
  [.lit ['(', 'n', ')'], .cls anyChar false false true,
   .alt2 [.lit "Item".toList] [.eos]]

/-- The span pattern the loop builds at index `i`. -/
def spanToksAt (i : Nat) : List Tok :=
  match clientLetters.get? i, clientLetters.get? (i + 1) with
  | some ln, some nx => letterToks ln.1 nx.1
  | some _, none => lastLetterToks
  | none, _ => []

/-- Pattern `Other:\\s*([^\\n$]+)` for the free-text description of the 14th
category. -/
def toksOtherDesc : List Tok :=
  [.lit "Other:".toList, .cls pySpace false true false,
   .cls notNLDollar true true true]

/-- Currency pattern `\\$\\s*([\\d,]+)`. -/
def toksAum : List Tok :=
  [.lit ['$'], .cls pySpace false true false, .cls digitOrComma true true true]

/-- One iteration of the letter loop: the optional (category label, parsed
amount) pair for index `i`; `none` when the span pattern has no match.  The
label of the 14th category gets the colon-delimited description appended; a
missing or empty currency match leaves the amount 0. -/
def clientEntryAt (sectionText : List Char) (i : Nat) : Option (String × Nat) :=
  match clientLetters.get? i with
  | none => none
  | some ln =>
    match (searchToks (spanToksAt i) sectionText).bind (fun r => r.1.head?) with
    | none => none
    | some lineText =>
      let name :=
        if ln.1 == 'n' && lineText.contains ':' then
          match searchToks toksOtherDesc lineText with
          | some (g :: _, _) => ln.2 ++ ": " ++ (⟨pyStripList g⟩ : String)
          | _ => ln.2
        else ln.2
      let aum : Nat :=
        match searchToks toksAum lineText with
        | some (g :: _, _) =>
          let astr := g.filter (fun c => !(c == ','))
          if astr.isEmpty then 0 else digitsVal astr
        | _ => 0
      some (name, aum)

/-- `PdfTransformer._extract_client_types`: only letters whose parsed amount
is strictly positive are stored into the result dict. -/
def extractClientTypes (text : List Char) : List (String × Nat) :=
  match clientSection text with
  | none => []
  | some sectionText =>
    (List.range 14).foldl (fun acc i =>
      match clientEntryAt sectionText i with
      | none => acc
      | some e => if 0 < e.2 then dictInsert acc e.1 e.2 else acc) []

/-! ### Private funds (`_extract_private_funds_and_ids`) -/

/-- The findall pattern; group 1 is the lazy `([^\\n]+?)` fund name, group 2
in the source is `(805-\\d+)` whose constant head `805-` is encoded as the
literal before the captured digit run and restored when the result entry is
built. -/
def toksFund : List Tok := [
  .lit "Name of the private fund:".toList,
  .cls pySpace false true false,
  .cls notNL true false true,
  .cls pySpace false true false,
  .lit ['\n'],
  .cls pySpace false true false,
  .lit "(b) Private fund identification number:".toList,
  .cls pySpace false true false,
  .lit "(include the \"805-\" prefix also)".toList,
  .cls pySpace false true false,
  .lit "805-".toList,
  .cls Char.isDigit true true true]

/-- `PdfTransformer._extract_private_funds_and_ids`: every matched pair
becomes one dict entry keyed by the stripped name (later names overwrite). -/
def extractPrivateFunds (text : List Char) : List (String × String) :=
  (searchAll toksFund text).foldl (fun acc gs =>
    match gs with
    | [nameG, idDigits] =>
      dictInsert acc (⟨pyStripList nameG⟩ : String) ("805-" ++ (⟨idDigits⟩ : String))
    | _ => acc) []

/-- The fund identifier shape: the literal `805-` followed by one or more
digits. -/
def is805Id (s : String) : Prop :=
  ∃ ds : List Char, ds ≠ [] ∧ (∀ c ∈ ds, c.isDigit = true) ∧
    s.toList = '8' :: '0' :: '5' :: '-' :: ds

/-! ### Address (`_extract_address`) -/

/-- Pattern `Number and Street 1:\\s*(.+?)(?:\\s*Number and Street 2:|$)`
(DOTALL). -/
def street1Toks : List Tok :=
  [.lit "Number and Street 1:".toList, .cls pySpace false true false,
   .cls anyChar true false true,
   .alt2 [.cls pySpace false true false, .lit "Number and Street 2:".toList] [.dollar]]

/-- Pattern `Number and Street 2:\\s*(.+?)(?:\\s*City:|$)` (DOTALL). -/
def street2Toks : List Tok :=
  [.lit "Number and Street 2:".toList, .cls pySpace false true false,
   .cls anyChar true false true,
   .alt2 [.cls pySpace false true false, .lit "City:".toList] [.dollar]]

/-- Pattern `City:\\s*(.+?)(?:\\s*State:|$)` (DOTALL). -/
def cityToks : List Tok :=
  [.lit "City:".toList, .cls pySpace false true false,
   .cls anyChar true false true,
   .alt2 [.cls pySpace false true false, .lit "State:".toList] [.dollar]]

/-- Pattern `State:\\s*(.+?)(?:\\s*Country:|$)` (DOTALL). -/
def stateToks : List Tok :=
  [.lit "State:".toList, .cls pySpace false true false,
   .cls anyChar true false true,
   .alt2 [.cls pySpace false true false, .lit "Country:".toList] [.dollar]]

/-- Pattern `Country:\\s*(.+?)(?:\\s*ZIP\\+4/Postal Code:|$)` (DOTALL). -/
def countryToks : List Tok :=
  [.lit "Country:".toList, .cls pySpace false true false,
   .cls anyChar true false true,
   .alt2 [.cls pySpace false true false, .lit "ZIP+4/Postal Code:".toList] [.dollar]]

/-- Pattern `ZIP\\+4/Postal Code:\\s*(.+?)(?:\\s*If this address is|$)`
(DOTALL). -/
def postalToks : List Tok :=
  [.lit "ZIP+4/Postal Code:".toList, .cls pySpace false true false,
   .cls anyChar true false true,
   .alt2 [.cls pySpace false true false, .lit "If this address is".toList] [.dollar]]

/-- One address component: the stripped group when the match exists and the
stripped group is non-empty, else `None`. -/
def addrComponent (toks : List Tok) (text : List Char) : Option String :=
  match (searchToks toks text).bind (fun r => r.1.head?) with
  | none => none
  | some g =>
    let st := pyStripList g
    if st.isEmpty then none else some ⟨st⟩

/-- Truthiness-guarded singleton, as `if component: parts.append(component)`. -/
def optToList : Option String → List String
  | some s => [s]
  | none => []

/-- Python `", ".join`. -/
def joinWithComma : List String → String
  | [] => ""
  | [s] => s
  | s :: rest => s ++ ", " ++ joinWithComma rest

/-- Python `address_parts[-1] = f"{last} {postal}"`. -/
def setLastAppend : List String → String → List String
  | [], _ => []
  | [s], tailPart => [s ++ " " ++ tailPart]
  | s :: rest, tailPart => s :: setLastAppend rest tailPart

/-- The assembly stage of `_extract_address`, straight from the source's
`address_parts` accumulation. -/
def assembleAddress (street1 street2 city state country postal : Option String) :
    Option String :=
  let street_parts := optToList street1 ++ optToList street2
  let parts1 : List String :=
    if street_parts.isEmpty then [] else [joinWithComma street_parts]
  let parts2 : List String :=
    if country == some "United States" then
      let city_state := optToList city ++ optToList state
      if city_state.isEmpty then parts1 else parts1 ++ [joinWithComma city_state]
    else
      match city with
      | some c => parts1 ++ [c]
      | none => parts1
  let parts3 : List String :=
    if country == some "United States" && postal.isSome then
      if !parts2.isEmpty && state.isSome then setLastAppend parts2 (postal.getD "")
      else parts2 ++ [postal.getD ""]
    else
      match postal with
      | some pc => parts2 ++ [pc]
      | none => parts2
  let parts4 : List String :=
    match country with
    | some c => parts3 ++ [c]
    | none => parts3
  if parts4.isEmpty then none else some (joinWithComma parts4)

/-- `PdfTransformer._extract_address`: six independent component searches,
then assembly. -/
def extract_address (text : List Char) : Option String :=
  assembleAddress (addrComponent street1Toks text) (addrComponent street2Toks text)
    (addrComponent cityToks text) (addrComponent stateToks text)
    (addrComponent countryToks text) (addrComponent postalToks text)

/-! ### Concrete sample inputs used by the closed witness statements -/

/-- A text carrying the SEC file number question. -/
def secDemo : List Char :=
  "you are registered with the SEC as an investment adviser, your SEC file number: 801-99999".toList

/-- A client-type section where only category (a) has a positive amount
(the example of spec section 8). -/
def clientDemo : List Char :=
  "Type of Client x under Management (a) q $5,000,000 (b) r Item".toList

/-- A private-fund block with one fund entry. -/
def fundDemo : List Char :=
  ("Name of the private fund: ABC Fund \n(b) Private fund identification number: " ++
    "(include the \"805-\" prefix also) 805-123").toList

/-- An address text whose components come out as city "Boston", state absent,
country "United States", postal code "02101". -/
def addrDemo : List Char :=
  "Country: United States ZIP+4/Postal Code: 02101 If this address is City: Boston State:".toList

/-! ### Capture soundness bookkeeping for the matcher

`capSpecs` lists, in group order, the class and the at-least-one flag of each
capturing token of an alternation-capture-free token list; `GroupsMatch`
states that every captured group consists of characters of its class and is
non-empty when the quantifier requires at least one character. -/

/-- The (class, atLeastOne) specification of each capture group, in order.
Alternation branches are not traversed; the soundness lemma therefore
requires branches to be capture-free (`toksAltOK`). -/
def capSpecs : List Tok → List ((Char → Bool) × Bool)
  | [] => []
  | .cls p a _ c :: rest => if c then (p, a) :: capSpecs rest else capSpecs rest
  | _ :: rest => capSpecs rest

mutual

/-- No capturing token anywhere in this token. -/
def tokCapFree : Tok → Bool
  | .cls _ _ _ c => !c
  | .alt2 b1 b2 => toksCapFreeB b1 && toksCapFreeB b2
  | _ => true

/-- No capturing token anywhere in this token list. -/
def toksCapFreeB : List Tok → Bool
  | [] => true
  | t :: ts => tokCapFree t && toksCapFreeB ts

end

/-- Every alternation branch in this token is capture-free. -/
def tokAltOK : Tok → Bool
  | .alt2 b1 b2 => toksCapFreeB b1 && toksCapFreeB b2
  | _ => true

/-- Every alternation branch in this token list is capture-free. -/
def toksAltOK : List Tok → Bool
  | [] => true
  | t :: ts => tokAltOK t && toksAltOK ts

/-- Each captured group fits its capture specification. -/
def GroupsMatch (specs : List ((Char → Bool) × Bool)) (gs : List (List Char)) : Prop :=
  List.Forall₂ (fun sp g => (∀ c ∈ g, sp.1 c = true) ∧ (sp.2 = true → g ≠ [])) specs gs

/-! ### Lemmas about delete-then-insert -/

theorem filter_key_filter_ne {β : Type} (rows : List (Int × β)) (crd : Int) :
    (rows.filter (fun r => r.1 != crd)).filter (fun r => r.1 == crd) = [] := by
  induction rows with
  | nil => rfl
  | cons a t ih =>
    by_cases h : a.1 = crd <;> simp [List.filter_cons, h, ih]

theorem filter_key_replaceAll {β : Type} (rows new : List (Int × β)) (crd : Int)
    (hnew : ∀ r ∈ new, r.1 = crd) :
    (rows.filter (fun r => r.1 != crd) ++ new).filter (fun r => r.1 == crd) = new := by
  rw [List.filter_append, filter_key_filter_ne, List.nil_append]
  induction new with
  | nil => rfl
  | cons a t ih =>
    have ha : a.1 = crd := hnew a (by simp)
    simp only [List.filter_cons]
    rw [if_pos (by simp [ha])]
    rw [ih (fun r hr => hnew r (by simp [hr]))]

theorem crdIds_filter_ne (rows : List FundRow) (crd : Int) :
    crdIds crd (rows.filter (fun r => r.1 != crd)) = [] := by
  unfold crdIds
  rw [filter_key_filter_ne]
  rfl

/-! ### Lemmas about the private-fund insertion loop -/

theorem writeFundsGo_ok_eq (crd : Int) :
    ∀ (pfs : List (String × String)) (acc out : List FundRow),
      writeFundsGo crd acc pfs = .ok out →
      out = acc ++ pfs.map (fun p => (crd, p.1, p.2)) := by
  intro pfs
  induction pfs with
  | nil =>
    intro acc out h
    simp [writeFundsGo] at h
    simp [h]
  | cons p rest ih =>
    intro acc out h
    unfold writeFundsGo at h
    by_cases hc : acc.any (fun r => r.1 == crd && r.2.2 == p.2) = true
    · rw [if_pos hc] at h
      exact absurd h (by simp)
    · rw [if_neg hc] at h
      have := ih _ _ h
      simp [this]

theorem any_conflict_iff (crd : Int) (acc : List FundRow) (s : String) :
    acc.any (fun r => r.1 == crd && r.2.2 == s) = true ↔ s ∈ crdIds crd acc := by
  unfold crdIds
  simp only [List.any_eq_true, List.mem_map, List.mem_filter]
  constructor
  · rintro ⟨r, hr, hp⟩
    simp only [Bool.and_eq_true, beq_iff_eq] at hp
    exact ⟨r, ⟨hr, by simp [hp.1]⟩, hp.2⟩
  · rintro ⟨r, ⟨hr, hk⟩, hs⟩
    simp only [beq_iff_eq] at hk
    exact ⟨r, hr, by simp [hk, hs]⟩

theorem crdIds_append_own (crd : Int) (acc : List FundRow) (n s : String) :
    crdIds crd (acc ++ [(crd, n, s)]) = crdIds crd acc ++ [s] := by
  unfold crdIds
  simp [List.filter_append]

theorem writeFundsGo_isOk_iff (crd : Int) :
    ∀ (pfs : List (String × String)) (acc : List FundRow),
      (∃ out, writeFundsGo crd acc pfs = .ok out) ↔
        ((pfs.map Prod.snd).Nodup ∧ ∀ p ∈ pfs, p.2 ∉ crdIds crd acc) := by
  intro pfs
  induction pfs with
  | nil =>
    intro acc
    simp [writeFundsGo]
  | cons p rest ih =>
    intro acc
    unfold writeFundsGo
    by_cases hc : acc.any (fun r => r.1 == crd && r.2.2 == p.2) = true
    · rw [if_pos hc]
      have hmem : p.2 ∈ crdIds crd acc := (any_conflict_iff crd acc p.2).mp hc
      constructor
      · rintro ⟨out, hout⟩
        exact absurd hout (by simp)
      · rintro ⟨-, hall⟩
        exact absurd hmem (hall p (by simp))
    · rw [if_neg hc]
      have hnot : p.2 ∉ crdIds crd acc := fun hm => hc ((any_conflict_iff crd acc p.2).mpr hm)
      rw [ih]
      rw [crdIds_append_own]
      constructor
      · rintro ⟨hnd, hall⟩
        refine ⟨?_, ?_⟩
        · simp only [List.map_cons, List.nodup_cons]
          refine ⟨?_, hnd⟩
          intro hmem
          rcases List.mem_map.mp hmem with ⟨q, hq, hqs⟩
          have := hall q hq
          simp [hqs] at this
        · intro q hq
          rcases List.mem_cons.mp hq with h | h
          · rw [h]; exact hnot
          · have := hall q h
            intro hbad
            exact this (by simp [hbad])
      · rintro ⟨hnd, hall⟩
        simp only [List.map_cons, List.nodup_cons] at hnd
        refine ⟨hnd.2, ?_⟩
        intro q hq
        simp only [List.mem_append, List.mem_singleton]
        rintro (h | h)
        · exact hall q (by simp [hq]) h
        · exact hnd.1 (h ▸ List.mem_map.mpr ⟨q, hq, rfl⟩)

theorem writePrivateFunds_ok_eq (rows : List FundRow) (crd : Int)
    (pfs : List (String × String)) (out : List FundRow)
    (h : writePrivateFunds rows crd pfs = .ok out) :
    out = rows.filter (fun r => r.1 != crd) ++ pfs.map (fun p => (crd, p.1, p.2)) :=
  writeFundsGo_ok_eq crd pfs _ out h

theorem writePrivateFunds_ok_iff (rows : List FundRow) (crd : Int)
    (pfs : List (String × String)) :
    (∃ out, writePrivateFunds rows crd pfs = .ok out) ↔ (pfs.map Prod.snd).Nodup := by
  unfold writePrivateFunds
  rw [writeFundsGo_isOk_iff]
  rw [crdIds_filter_ne]
  simp

/-! ### Lemmas about the firms upsert -/

theorem upsertFirm_keys_of_mem (fs : List (Int × FirmRow)) (crd : Int) (row : FirmRow)
    (h : fs.any (fun p => p.1 == crd) = true) :
    (upsertFirm fs crd row).map Prod.fst = fs.map Prod.fst := by
  unfold upsertFirm
  rw [if_pos h, List.map_map]
  apply List.map_congr_left
  intro p _
  by_cases hp : p.1 = crd <;> simp [hp]

theorem upsertFirm_keys_of_not_mem (fs : List (Int × FirmRow)) (crd : Int) (row : FirmRow)
    (h : ¬fs.any (fun p => p.1 == crd) = true) :
    (upsertFirm fs crd row).map Prod.fst = fs.map Prod.fst ++ [crd] := by
  unfold upsertFirm
  rw [if_neg h]
  simp

theorem upsertFirm_wf (fs : List (Int × FirmRow)) (crd : Int) (row : FirmRow)
    (h : (fs.map Prod.fst).Nodup) :
    ((upsertFirm fs crd row).map Prod.fst).Nodup := by
  by_cases hany : fs.any (fun p => p.1 == crd) = true
  · rw [upsertFirm_keys_of_mem fs crd row hany]; exact h
  · rw [upsertFirm_keys_of_not_mem fs crd row hany]
    rw [List.nodup_append]
    refine ⟨h, List.nodup_singleton crd, ?_⟩
    intro k hk hk1
    simp only [List.mem_singleton] at hk1
    subst hk1
    rcases List.mem_map.mp hk with ⟨p, hp, hpk⟩
    exact hany (List.any_eq_true.mpr ⟨p, hp, by simp [hpk]⟩)

theorem length_filter_key_eq_count {β : Type} (l : List (Int × β)) (crd : Int) :
    (l.filter (fun p => p.1 == crd)).length = (l.map Prod.fst).count crd := by
  induction l with
  | nil => rfl
  | cons a t ih =>
    by_cases h : a.1 = crd <;>
      simp [List.filter_cons, List.count_cons, h, ih]

theorem upsertFirm_count_one (fs : List (Int × FirmRow)) (crd : Int) (row : FirmRow)
    (h : (fs.map Prod.fst).Nodup) :
    ((upsertFirm fs crd row).filter (fun p => p.1 == crd)).length = 1 := by
  rw [length_filter_key_eq_count]
  by_cases hany : fs.any (fun p => p.1 == crd) = true
  · rw [upsertFirm_keys_of_mem fs crd row hany]
    rcases List.any_eq_true.mp hany with ⟨p, hp, hpk⟩
    have hpk' : p.1 = crd := by simpa using hpk
    exact List.count_eq_one_of_mem h (hpk' ▸ List.mem_map.mpr ⟨p, hp, rfl⟩)
  · rw [upsertFirm_keys_of_not_mem fs crd row hany]
    rw [List.count_append]
    have hzero : (fs.map Prod.fst).count crd = 0 := by
      rw [List.count_eq_zero]
      intro hmem
      rcases List.mem_map.mp hmem with ⟨p, hp, hpk⟩
      exact hany (List.any_eq_true.mpr ⟨p, hp, by simp [hpk]⟩)
    simp [hzero]

/-! ### Unfolding writeFirm -/

theorem writeFirm_ok_iff (db : DBState) (crd : Int) (r : FirmRecord) :
    (∃ db1, writeFirm db crd r = .ok db1) ↔
      ((r.private_funds.getD []).map Prod.snd).Nodup := by
  unfold writeFirm
  rw [← writePrivateFunds_ok_iff db.private_funds crd (r.private_funds.getD [])]
  constructor
  · rintro ⟨db1, h1⟩
    cases hpf : writePrivateFunds db.private_funds crd (r.private_funds.getD []) with
    | error e => rw [hpf] at h1; exact absurd h1 (by simp)
    | ok funds1 => exact ⟨funds1, rfl⟩
  · rintro ⟨out, hout⟩
    rw [hout]
    exact ⟨_, rfl⟩

theorem writeFirm_ok_elim (db : DBState) (crd : Int) (r : FirmRecord) (db1 : DBState)
    (h : writeFirm db crd r = .ok db1) :
    db1.firms = upsertFirm db.firms crd r.scalars ∧
    db1.compensation_arrangements =
      writeCompensationArrangements db.compensation_arrangements crd
        (r.compensation_arrangements.getD (.ofStr "")) ∧
    db1.client_types = writeClientTypes db.client_types crd (r.client_types.getD []) ∧
    db1.private_funds = db.private_funds.filter (fun p => p.1 != crd) ++
      (r.private_funds.getD []).map (fun p => (crd, p.1, p.2)) := by
  unfold writeFirm at h
  cases hpf : writePrivateFunds db.private_funds crd (r.private_funds.getD []) with
  | error e =>
    rw [hpf] at h
    exact absurd h (by simp)
  | ok funds1 =>
    rw [hpf] at h
    have hout := writePrivateFunds_ok_eq _ _ _ _ hpf
    cases h
    exact ⟨rfl, rfl, rfl, hout⟩

/-! ## Claim theorems: storage sink -/

/-- C1: writing the same entity record twice through the sink yields exactly
one entity row for that CRD key, and each of the three child tables holds
exactly the rows inserted by the second write (no duplication, no leftovers
from the first write). -/
theorem idempotent_replace (db : DBState) (crd : Int) (r : FirmRecord) (db1 : DBState)
    (hwf : FirmsWF db) (h1 : writeFirm db crd r = .ok db1) :
    ∃ db2, writeFirm db1 crd r = .ok db2 ∧
      (firmRowsFor db2 crd).length = 1 ∧
      compRowsFor db2 crd =
        (stripArrangements (r.compensation_arrangements.getD (.ofStr ""))).map
          (fun a => (crd, a)) ∧
      ctRowsFor db2 crd = (r.client_types.getD []).map
        (fun p => (crd, p.1, normalizeAum p.2)) ∧
      fundRowsFor db2 crd = (r.private_funds.getD []).map (fun p => (crd, p.1, p.2)) := by
  have hnodup : ((r.private_funds.getD []).map Prod.snd).Nodup :=
    (writeFirm_ok_iff db crd r).mp ⟨db1, h1⟩
  rcases (writeFirm_ok_iff db1 crd r).mpr hnodup with ⟨db2, h2⟩
  refine ⟨db2, h2, ?_, ?_, ?_, ?_⟩
  · rcases writeFirm_ok_elim db crd r db1 h1 with ⟨hf1, -, -, -⟩
    rcases writeFirm_ok_elim db1 crd r db2 h2 with ⟨hf2, -, -, -⟩
    have hwf1 : (db1.firms.map Prod.fst).Nodup := by
      rw [hf1]; exact upsertFirm_wf _ _ _ hwf
    unfold firmRowsFor
    rw [hf2]
    exact upsertFirm_count_one _ _ _ hwf1
  · rcases writeFirm_ok_elim db1 crd r db2 h2 with ⟨-, hc2, -, -⟩
    unfold compRowsFor
    rw [hc2]
    unfold writeCompensationArrangements
    apply filter_key_replaceAll
    intro x hx
    rcases List.mem_map.mp hx with ⟨a, -, ha⟩
    simp [← ha]
  · rcases writeFirm_ok_elim db1 crd r db2 h2 with ⟨-, -, ht2, -⟩
    unfold ctRowsFor
    rw [ht2]
    unfold writeClientTypes
    apply filter_key_replaceAll
    intro x hx
    rcases List.mem_map.mp hx with ⟨a, -, ha⟩
    simp [← ha]
  · rcases writeFirm_ok_elim db1 crd r db2 h2 with ⟨-, -, -, hp2⟩
    unfold fundRowsFor
    rw [hp2]
    apply filter_key_replaceAll
    intro x hx
    rcases List.mem_map.mp hx with ⟨a, -, ha⟩
    simp [← ha]

/-- C1 witness at a concrete record and an initially empty database. -/
theorem idempotent_replace_witness :
    FirmsWF ⟨[], [], [], []⟩ ∧
    writeFirm ⟨[], [], [], []⟩ 160882
      ⟨⟨some "801-12345", some "Test Firm 1", some "Test Firm One LLC",
        some "123 Test St", some "555-1234", some 50, some "John Doe"⟩,
        some (.ofList ["Percentage of AUM", "Performance-based fees"]),
        some [("Individuals", .int 5000000)],
        some [("XYZ Fund", "805-123456")]⟩ =
      .ok ⟨[(160882, ⟨some "801-12345", some "Test Firm 1", some "Test Firm One LLC",
            some "123 Test St", some "555-1234", some 50, some "John Doe"⟩)],
          [(160882, "Percentage of AUM"), (160882, "Performance-based fees")],
          [(160882, "Individuals", 5000000)],
          [(160882, "XYZ Fund", "805-123456")]⟩ ∧
    (∃ db2, writeFirm
        ⟨[(160882, ⟨some "801-12345", some "Test Firm 1", some "Test Firm One LLC",
            some "123 Test St", some "555-1234", some 50, some "John Doe"⟩)],
          [(160882, "Percentage of AUM"), (160882, "Performance-based fees")],
          [(160882, "Individuals", 5000000)],
          [(160882, "XYZ Fund", "805-123456")]⟩ 160882
        ⟨⟨some "801-12345", some "Test Firm 1", some "Test Firm One LLC",
          some "123 Test St", some "555-1234", some 50, some "John Doe"⟩,
          some (.ofList ["Percentage of AUM", "Performance-based fees"]),
          some [("Individuals", .int 5000000)],
          some [("XYZ Fund", "805-123456")]⟩ = .ok db2 ∧
      (firmRowsFor db2 160882).length = 1 ∧
      compRowsFor db2 160882 = [(160882, "Percentage of AUM"), (160882, "Performance-based fees")] ∧
      ctRowsFor db2 160882 = [(160882, "Individuals", 5000000)] ∧
      fundRowsFor db2 160882 = [(160882, "XYZ Fund", "805-123456")]) := by
  refine ⟨by simp [FirmsWF], by rfl, ?_⟩
  exact idempotent_replace ⟨[], [], [], []⟩ 160882
    ⟨⟨some "801-12345", some "Test Firm 1", some "Test Firm One LLC",
      some "123 Test St", some "555-1234", some 50, some "John Doe"⟩,
      some (.ofList ["Percentage of AUM", "Performance-based fees"]),
      some [("Individuals", .int 5000000)],
      some [("XYZ Fund", "805-123456")]⟩
    ⟨[(160882, ⟨some "801-12345", some "Test Firm 1", some "Test Firm One LLC",
        some "123 Test St", some "555-1234", some 50, some "John Doe"⟩)],
      [(160882, "Percentage of AUM"), (160882, "Performance-based fees")],
      [(160882, "Individuals", 5000000)],
      [(160882, "XYZ Fund", "805-123456")]⟩
    (by simp [FirmsWF]) (by rfl)

/-- C2: inside a batch write, when one entity's per-entity transaction fails
at any step, the state reverts to exactly what it was before that entity's
BEGIN (earlier entities' committed writes are kept, nothing partial survives
for the failing entity) and the failure is propagated to the caller. -/
theorem write_rollback_on_failure (db : DBState) (pre : List (Int × FirmRecord))
    (crd : Int) (r : FirmRecord) (rest : List (Int × FirmRecord)) (db1 : DBState)
    (e : String) (hpre : write db pre = (db1, none))
    (hfail : writeFirm db1 crd r = .error e) :
    write db (pre ++ (crd, r) :: rest) = (db1, some e) ∧
      firmRowsFor (write db (pre ++ (crd, r) :: rest)).1 crd = firmRowsFor db1 crd ∧
      compRowsFor (write db (pre ++ (crd, r) :: rest)).1 crd = compRowsFor db1 crd ∧
      ctRowsFor (write db (pre ++ (crd, r) :: rest)).1 crd = ctRowsFor db1 crd ∧
      fundRowsFor (write db (pre ++ (crd, r) :: rest)).1 crd = fundRowsFor db1 crd := by
  have hmain : write db (pre ++ (crd, r) :: rest) = (db1, some e) := by
    induction pre generalizing db with
    | nil =>
      simp only [write] at hpre
      cases hpre
      simp [write, hfail]
    | cons q tail ih =>
      simp only [List.cons_append, write] at hpre ⊢
      cases hq : writeFirm db q.1 q.2 with
      | ok dbq =>
        rw [hq] at hpre
        exact ih dbq hpre
      | error eq =>
        rw [hq] at hpre
        exact absurd hpre (by simp)
  exact ⟨hmain, by rw [hmain], by rw [hmain], by rw [hmain], by rw [hmain]⟩

/-- C2 witness: the second entity's private funds repeat a fund identifier
under two names, so its second INSERT violates UNIQUE(firm_crd_nb, fund_id);
the batch write keeps the first entity's committed write, leaves no trace of
the failing entity, and returns the error. -/
theorem write_rollback_on_failure_witness :
    write ⟨[], [], [], []⟩
      [(1, ⟨⟨none, none, none, none, none, none, none⟩, none, none,
          some [("F", "805-7")]⟩)] =
      (⟨[(1, ⟨none, none, none, none, none, none, none⟩)], [], [], [(1, "F", "805-7")]⟩,
        none) ∧
    writeFirm ⟨[(1, ⟨none, none, none, none, none, none, none⟩)], [], [], [(1, "F", "805-7")]⟩
      2 ⟨⟨none, none, none, none, none, none, none⟩, none, none,
          some [("A", "805-9"), ("B", "805-9")]⟩ =
      .error "UNIQUE constraint failed: private_funds.firm_crd_nb, private_funds.fund_id" ∧
    (write ⟨[], [], [], []⟩
        [(1, ⟨⟨none, none, none, none, none, none, none⟩, none, none,
            some [("F", "805-7")]⟩),
          (2, ⟨⟨none, none, none, none, none, none, none⟩, none, none,
            some [("A", "805-9"), ("B", "805-9")]⟩)] =
      (⟨[(1, ⟨none, none, none, none, none, none, none⟩)], [], [], [(1, "F", "805-7")]⟩,
        some "UNIQUE constraint failed: private_funds.firm_crd_nb, private_funds.fund_id") ∧
      firmRowsFor (write ⟨[], [], [], []⟩
        [(1, ⟨⟨none, none, none, none, none, none, none⟩, none, none,
            some [("F", "805-7")]⟩),
          (2, ⟨⟨none, none, none, none, none, none, none⟩, none, none,
            some [("A", "805-9"), ("B", "805-9")]⟩)]).1 2 =
        firmRowsFor ⟨[(1, ⟨none, none, none, none, none, none, none⟩)], [], [],
          [(1, "F", "805-7")]⟩ 2 ∧
      compRowsFor (write ⟨[], [], [], []⟩
        [(1, ⟨⟨none, none, none, none, none, none, none⟩, none, none,
            some [("F", "805-7")]⟩),
          (2, ⟨⟨none, none, none, none, none, none, none⟩, none, none,
            some [("A", "805-9"), ("B", "805-9")]⟩)]).1 2 =
        compRowsFor ⟨[(1, ⟨none, none, none, none, none, none, none⟩)], [], [],
          [(1, "F", "805-7")]⟩ 2 ∧
      ctRowsFor (write ⟨[], [], [], []⟩
        [(1, ⟨⟨none, none, none, none, none, none, none⟩, none, none,
            some [("F", "805-7")]⟩),
          (2, ⟨⟨none, none, none, none, none, none, none⟩, none, none,
            some [("A", "805-9"), ("B", "805-9")]⟩)]).1 2 =
        ctRowsFor ⟨[(1, ⟨none, none, none, none, none, none, none⟩)], [], [],
          [(1, "F", "805-7")]⟩ 2 ∧
      fundRowsFor (write ⟨[], [], [], []⟩
        [(1, ⟨⟨none, none, none, none, none, none, none⟩, none, none,
            some [("F", "805-7")]⟩),
          (2, ⟨⟨none, none, none, none, none, none, none⟩, none, none,
            some [("A", "805-9"), ("B", "805-9")]⟩)]).1 2 =
        fundRowsFor ⟨[(1, ⟨none, none, none, none, none, none, none⟩)], [], [],
          [(1, "F", "805-7")]⟩ 2) := by
  refine ⟨by rfl, by rfl, ?_⟩
  exact write_rollback_on_failure ⟨[], [], [], []⟩
    [(1, ⟨⟨none, none, none, none, none, none, none⟩, none, none, some [("F", "805-7")]⟩)]
    2 ⟨⟨none, none, none, none, none, none, none⟩, none, none,
      some [("A", "805-9"), ("B", "805-9")]⟩ []
    ⟨[(1, ⟨none, none, none, none, none, none, none⟩)], [], [], [(1, "F", "805-7")]⟩
    "UNIQUE constraint failed: private_funds.firm_crd_nb, private_funds.fund_id"
    (by rfl) (by rfl)

/-- C10: in any per-entity write that commits, each child-collection key the
record omits is treated as the empty collection independently of the other
keys: all existing child rows of that omitted kind for the entity are
deleted and nothing of that kind is inserted, rather than the prior rows
being left unchanged. -/
theorem omitted_children_cleared (db : DBState) (crd : Int) (r : FirmRecord)
    (db1 : DBState) (hw : writeFirm db crd r = .ok db1) :
    (r.compensation_arrangements = none → compRowsFor db1 crd = []) ∧
    (r.client_types = none → ctRowsFor db1 crd = []) ∧
    (r.private_funds = none → fundRowsFor db1 crd = []) := by
  rcases writeFirm_ok_elim db crd r db1 hw with ⟨-, hc1, ht1, hp1⟩
  refine ⟨?_, ?_, ?_⟩
  · intro hc
    unfold compRowsFor
    rw [hc1, hc]
    unfold writeCompensationArrangements
    have : stripArrangements ((none : Option CompInput).getD (.ofStr "")) = [] := by decide
    rw [this]
    simp [filter_key_filter_ne]
  · intro ht
    unfold ctRowsFor
    rw [ht1, ht]
    unfold writeClientTypes
    simp [filter_key_filter_ne]
  · intro hp
    unfold fundRowsFor
    rw [hp1, hp]
    simp [filter_key_filter_ne]

/-- C10 witness: a record that omits only the compensation and private-fund
keys while providing client types rewrites an entity holding child rows of
all three kinds; both omitted kinds come out empty and the provided kind is
replaced. -/
theorem omitted_children_cleared_witness :
    writeFirm
      ⟨[(7, ⟨none, none, none, none, none, none, none⟩)],
        [(7, "Commissions")], [(7, "Pension Plans", 9)], [(7, "F", "805-1")]⟩ 7
      ⟨⟨none, none, none, none, none, none, none⟩, none,
        some [("Individuals", .int 5000000)], none⟩ =
      .ok ⟨[(7, ⟨none, none, none, none, none, none, none⟩)], [],
        [(7, "Individuals", 5000000)], []⟩ ∧
    (((⟨⟨none, none, none, none, none, none, none⟩, none,
          some [("Individuals", .int 5000000)], none⟩ :
        FirmRecord).compensation_arrangements = none →
      compRowsFor ⟨[(7, ⟨none, none, none, none, none, none, none⟩)], [],
        [(7, "Individuals", 5000000)], []⟩ 7 = []) ∧
     ((⟨⟨none, none, none, none, none, none, none⟩, none,
          some [("Individuals", .int 5000000)], none⟩ :
        FirmRecord).client_types = none →
      ctRowsFor ⟨[(7, ⟨none, none, none, none, none, none, none⟩)], [],
        [(7, "Individuals", 5000000)], []⟩ 7 = []) ∧
     ((⟨⟨none, none, none, none, none, none, none⟩, none,
          some [("Individuals", .int 5000000)], none⟩ :
        FirmRecord).private_funds = none →
      fundRowsFor ⟨[(7, ⟨none, none, none, none, none, none, none⟩)], [],
        [(7, "Individuals", 5000000)], []⟩ 7 = [])) ∧
    compRowsFor ⟨[(7, ⟨none, none, none, none, none, none, none⟩)], [],
      [(7, "Individuals", 5000000)], []⟩ 7 = [] ∧
    fundRowsFor ⟨[(7, ⟨none, none, none, none, none, none, none⟩)], [],
      [(7, "Individuals", 5000000)], []⟩ 7 = [] ∧
    ctRowsFor ⟨[(7, ⟨none, none, none, none, none, none, none⟩)], [],
      [(7, "Individuals", 5000000)], []⟩ 7 = [(7, "Individuals", 5000000)] := by
  refine ⟨by rfl, ?_, by decide, by decide, by decide⟩
  exact omitted_children_cleared
    ⟨[(7, ⟨none, none, none, none, none, none, none⟩)],
      [(7, "Commissions")], [(7, "Pension Plans", 9)], [(7, "F", "805-1")]⟩ 7
    ⟨⟨none, none, none, none, none, none, none⟩, none,
      some [("Individuals", .int 5000000)], none⟩
    ⟨[(7, ⟨none, none, none, none, none, none, none⟩)], [],
      [(7, "Individuals", 5000000)], []⟩
    (by rfl)

/-! ### Round-trip support -/

theorem dictInsert_fresh {α : Type} (acc : List (String × α)) (k : String) (v : α)
    (h : ¬acc.any (fun p => p.1 == k) = true) :
    dictInsert acc k v = acc ++ [(k, v)] := by
  unfold dictInsert
  rw [if_neg h]

theorem foldl_dictInsert_of_nodup {α : Type} :
    ∀ (cts : List (String × α)) (acc : List (String × α)),
      ((acc ++ cts).map Prod.fst).Nodup →
      cts.foldl (fun a p => dictInsert a p.1 p.2) acc = acc ++ cts := by
  intro cts
  induction cts with
  | nil => intro acc _; simp
  | cons p rest ih =>
    intro acc hnd
    have hfresh : ¬acc.any (fun q => q.1 == p.1) = true := by
      intro hany
      rcases List.any_eq_true.mp hany with ⟨q, hq, hqk⟩
      have hqk1 : q.1 = p.1 := by simpa using hqk
      rw [List.map_append, List.nodup_append] at hnd
      have h1 : q.1 ∈ acc.map Prod.fst := List.mem_map.mpr ⟨q, hq, rfl⟩
      have h2 : q.1 ∈ (p :: rest).map Prod.fst := by
        rw [hqk1]
        exact List.mem_map.mpr ⟨p, List.mem_cons_self p rest, rfl⟩
      exact hnd.2.2 h1 h2
    have hstep : dictInsert acc p.1 p.2 = acc ++ [p] := by
      rw [dictInsert_fresh acc p.1 p.2 hfresh]
    simp only [List.foldl_cons]
    rw [hstep, ih (acc ++ [p]) (by simpa using hnd)]
    simp

/-- C4: for a valid record (compensation given as a list of already-stripped
strings, client types given as a mapping with integer AUM values and distinct
categories, private funds given as a name-to-id mapping), a successful write
followed by the three per-entity fetchers returns the input collections:
the compensation list up to order, the client-type mapping exactly, and the
(name, identification_number) pairs up to order. -/
theorem round_trip (db : DBState) (crd : Int) (r : FirmRecord) (db1 : DBState)
    (l : List String) (ctsI : List (String × Int)) (pfs : List (String × String))
    (hcomp : r.compensation_arrangements = some (.ofList l))
    (hltrim : ∀ a ∈ l, pyStrip a = a)
    (hct : r.client_types = some (ctsI.map (fun p => (p.1, AumInput.int p.2))))
    (hkeys : (ctsI.map Prod.fst).Nodup)
    (hpf : r.private_funds = some pfs)
    (hw : writeFirm db crd r = .ok db1) :
    (fetch_compensation db1 crd).Perm l ∧
    fetch_client_types db1 crd = ctsI ∧
    (fetch_private_funds db1 crd).Perm pfs := by
  rcases writeFirm_ok_elim db crd r db1 hw with ⟨-, hc1, ht1, hp1⟩
  refine ⟨?_, ?_, ?_⟩
  · unfold fetch_compensation
    rw [hc1]
    unfold writeCompensationArrangements
    rw [filter_key_replaceAll _ _ crd
      (by intro x hx; rcases List.mem_map.mp hx with ⟨a, -, ha⟩; simp [← ha])]
    rw [hcomp]
    have hstrip : stripArrangements ((some (CompInput.ofList l)).getD (.ofStr "")) =
        l.map pyStrip := rfl
    rw [hstrip]
    have heq : ∀ (m : List String), (∀ a ∈ m, pyStrip a = a) →
        List.map (fun (r : CompRow) => r.2)
          (List.map (fun a => (crd, a)) (List.map pyStrip m)) = m := by
      intro m
      induction m with
      | nil => intro _; rfl
      | cons a t iht =>
        intro hm
        simp only [List.map_cons]
        rw [iht (fun b hb => hm b (List.mem_cons_of_mem a hb))]
        rw [hm a (List.mem_cons_self a t)]
    rw [heq l hltrim]
  · unfold fetch_client_types
    rw [ht1]
    unfold writeClientTypes
    rw [hct]
    simp only [Option.getD_some]
    rw [filter_key_replaceAll _ _ crd
      (by intro x hx; rcases List.mem_map.mp hx with ⟨a, -, ha⟩; simp [← ha])]
    have heq : ∀ (m : List (String × Int)),
        List.map (fun (r : CTRow) => (r.2.1, r.2.2))
          (List.map (fun p => (crd, p.1, normalizeAum p.2))
            (List.map (fun (p : String × Int) => (p.1, AumInput.int p.2)) m)) = m := by
      intro m
      induction m with
      | nil => rfl
      | cons p t iht =>
        simp only [List.map_cons]
        rw [iht]
        rfl
    rw [heq ctsI]
    have := foldl_dictInsert_of_nodup ctsI [] (by simpa using hkeys)
    simpa using this
  · unfold fetch_private_funds
    rw [hp1, hpf]
    simp only [Option.getD_some]
    rw [filter_key_replaceAll _ _ crd
      (by intro x hx; rcases List.mem_map.mp hx with ⟨a, -, ha⟩; simp [← ha])]
    have heq : ∀ (m : List (String × String)),
        List.map (fun (r : FundRow) => (r.2.1, r.2.2))
          (List.map (fun p => (crd, p.1, p.2)) m) = m := by
      intro m
      induction m with
      | nil => rfl
      | cons p t iht =>
        simp only [List.map_cons]
        rw [iht]
    rw [heq pfs]

/-- C4 witness at the test suite record (CRD 160882). -/
theorem round_trip_witness :
    (∀ a ∈ ["Commissions", "Hourly charges"], pyStrip a = a) ∧
    ((([("Individuals", 5000000), ("Corporations", 10000000)] : List (String × Int)).map
      Prod.fst).Nodup) ∧
    writeFirm ⟨[], [], [], []⟩ 160882
      ⟨⟨none, none, none, none, none, none, none⟩,
        some (.ofList ["Commissions", "Hourly charges"]),
        some [("Individuals", .int 5000000), ("Corporations", .int 10000000)],
        some [("XYZ Fund", "805-123456")]⟩ =
      .ok ⟨[(160882, ⟨none, none, none, none, none, none, none⟩)],
        [(160882, "Commissions"), (160882, "Hourly charges")],
        [(160882, "Individuals", 5000000), (160882, "Corporations", 10000000)],
        [(160882, "XYZ Fund", "805-123456")]⟩ ∧
    ((fetch_compensation ⟨[(160882, ⟨none, none, none, none, none, none, none⟩)],
        [(160882, "Commissions"), (160882, "Hourly charges")],
        [(160882, "Individuals", 5000000), (160882, "Corporations", 10000000)],
        [(160882, "XYZ Fund", "805-123456")]⟩ 160882).Perm
      ["Commissions", "Hourly charges"] ∧
    fetch_client_types ⟨[(160882, ⟨none, none, none, none, none, none, none⟩)],
        [(160882, "Commissions"), (160882, "Hourly charges")],
        [(160882, "Individuals", 5000000), (160882, "Corporations", 10000000)],
        [(160882, "XYZ Fund", "805-123456")]⟩ 160882 =
      [("Individuals", 5000000), ("Corporations", 10000000)] ∧
    (fetch_private_funds ⟨[(160882, ⟨none, none, none, none, none, none, none⟩)],
        [(160882, "Commissions"), (160882, "Hourly charges")],
        [(160882, "Individuals", 5000000), (160882, "Corporations", 10000000)],
        [(160882, "XYZ Fund", "805-123456")]⟩ 160882).Perm
      [("XYZ Fund", "805-123456")]) := by
  refine ⟨by decide, by decide, by rfl, ?_⟩
  exact round_trip ⟨[], [], [], []⟩ 160882
    ⟨⟨none, none, none, none, none, none, none⟩,
      some (.ofList ["Commissions", "Hourly charges"]),
      some [("Individuals", .int 5000000), ("Corporations", .int 10000000)],
      some [("XYZ Fund", "805-123456")]⟩
    ⟨[(160882, ⟨none, none, none, none, none, none, none⟩)],
      [(160882, "Commissions"), (160882, "Hourly charges")],
      [(160882, "Individuals", 5000000), (160882, "Corporations", 10000000)],
      [(160882, "XYZ Fund", "805-123456")]⟩
    ["Commissions", "Hourly charges"]
    [("Individuals", 5000000), ("Corporations", 10000000)]
    [("XYZ Fund", "805-123456")]
    rfl (by decide) rfl (by decide) rfl (by rfl)

/-! ## Claim theorems: field extraction -/

/-- C5: the uniform resolver evaluates the ordered pattern list strictly in
list order; when an earlier-listed pattern yields a non-empty captured value
(every pattern before it yielding nothing) while a later-listed pattern also
yields a non-empty value, the field resolves to the earlier pattern's value
with no scoring. -/
theorem first_match_wins (l1 l2 : List (List Tok)) (p q : List Tok)
    (text : List Char) (v w : String)
    (hearlier : ∀ p0 ∈ l1,
      extract_with_regex p0 text = none ∨ extract_with_regex p0 text = some "")
    (hp : extract_with_regex p text = some v) (hv : v ≠ "")
    (_hq : q ∈ l2)
    (_hw : extract_with_regex q text = some w) (_hwne : w ≠ "") :
    resolveField (l1 ++ p :: l2) text = some v := by
  induction l1 with
  | nil =>
    simp only [List.nil_append, resolveField, hp]
    rw [if_pos hv]
  | cons p0 t ih =>
    have h0 := hearlier p0 (List.mem_cons_self p0 t)
    have ht := ih (fun q0 hq0 => hearlier q0 (List.mem_cons_of_mem p0 hq0))
    simp only [List.cons_append, resolveField]
    rcases h0 with h | h
    · rw [h]
      exact ht
    · rw [h]
      simpa using ht

/-- C5 witness on the SEC-number rule table: the first and third patterns
both capture a non-empty value on this text, and the field resolves to the
first pattern's value. -/
theorem first_match_wins_witness :
    extract_with_regex secP1 secDemo = some "801-99999" ∧
    ("801-99999" : String) ≠ "" ∧
    secP3 ∈ [secP2, secP3, secP4] ∧
    extract_with_regex secP3 secDemo = some "801-99999" ∧
    extract_sec_number secDemo = some "801-99999" := by
  refine ⟨by rfl, by decide, List.mem_cons_of_mem _ (List.mem_cons_self _ _), by rfl, ?_⟩
  exact first_match_wins [] [secP2, secP3, secP4] secP1 secP3 secDemo
    "801-99999" "801-99999"
    (fun p0 h0 => absurd h0 (List.not_mem_nil p0))
    (by rfl) (by decide)
    (List.mem_cons_of_mem _ (List.mem_cons_self _ _))
    (by rfl) (by decide)

/-- C7: the checkbox classifier returns checked exactly when the fraction of
pixels with luminance strictly below the threshold 150 strictly exceeds
0.12 (equivalently, 25·darkCount > 3·pixelCount), and it is a deterministic
stateless function of the region's pixel values. -/
theorem checkbox_rule (pixels : List Nat) (h : pixels ≠ []) :
    (isCheckboxChecked pixels 150 = true ↔
      25 * pixels.countP (fun v => v < 150) > 3 * pixels.length) ∧
    (∀ qs : List Nat, qs = pixels →
      isCheckboxChecked qs 150 = isCheckboxChecked pixels 150) := by
  constructor
  · unfold isCheckboxChecked
    rw [decide_eq_true_eq]
    have hn : 0 < ((pixels.length : ℚ)) := by
      have hl : 0 < pixels.length := List.length_pos.mpr h
      exact_mod_cast hl
    rw [gt_iff_lt, div_lt_div_iff₀ (by norm_num : (0 : ℚ) < 100) hn]
    have hcast : ((12 : ℚ) * pixels.length <
        (pixels.countP (fun v => v < 150) : ℚ) * 100) ↔
        (12 * pixels.length < pixels.countP (fun v => v < 150) * 100) := by
      exact_mod_cast Iff.rfl
    rw [hcast]
    omega
  · intro qs hqs
    rw [hqs]

/-- C7 witness on an 8-pixel region with 7 dark pixels. -/
theorem checkbox_rule_witness :
    ([0, 200, 10, 20, 30, 40, 50, 60] : List Nat) ≠ [] ∧
    ((isCheckboxChecked [0, 200, 10, 20, 30, 40, 50, 60] 150 = true ↔
      25 * ([0, 200, 10, 20, 30, 40, 50, 60] : List Nat).countP (fun v => v < 150) >
        3 * ([0, 200, 10, 20, 30, 40, 50, 60] : List Nat).length) ∧
    (∀ qs : List Nat, qs = [0, 200, 10, 20, 30, 40, 50, 60] →
      isCheckboxChecked qs 150 = isCheckboxChecked [0, 200, 10, 20, 30, 40, 50, 60] 150)) :=
  ⟨by decide, checkbox_rule [0, 200, 10, 20, 30, 40, 50, 60] (by decide)⟩

/-- C3 (code bug): on a document none of whose pages contains the anchor
phrase "Compensation Arrangements", the page variable stays None and the
compensation extractor dereferences it, raising AttributeError instead of
returning an empty collection. -/
theorem compensation_anchor_missing_raises (doc : List Page)
    (h : ∀ p ∈ doc, p.searchFor "Compensation Arrangements" = []) :
    extractCompensationArrangements doc =
      .error "AttributeError: NoneType object has no attribute search_for" := by
  have hfind : findAnchorPage doc = none := by
    induction doc with
    | nil => rfl
    | cons p rest ih =>
      unfold findAnchorPage
      rw [h p (List.mem_cons_self p rest)]
      simpa using ih (fun q hq => h q (List.mem_cons_of_mem p hq))
  unfold extractCompensationArrangements
  rw [hfind]

/-- C3 witness: a one-page document whose text search never finds the anchor
phrase. -/
theorem compensation_anchor_missing_raises_witness :
    (∀ p ∈ [(⟨fun _ => [], fun _ => []⟩ : Page)],
      p.searchFor "Compensation Arrangements" = []) ∧
    extractCompensationArrangements [(⟨fun _ => [], fun _ => []⟩ : Page)] =
      .error "AttributeError: NoneType object has no attribute search_for" := by
  refine ⟨?_, ?_⟩
  · intro p hp
    rcases List.mem_singleton.mp hp with rfl
    rfl
  · exact compensation_anchor_missing_raises _ (by
      intro p hp
      rcases List.mem_singleton.mp hp with rfl
      rfl)

/-! ### Support for the client-type claims -/

theorem dictInsert_mem {α : Type} (P : String × α → Prop) (acc : List (String × α))
    (k : String) (v : α) (hacc : ∀ e ∈ acc, P e) (hkv : P (k, v)) :
    ∀ e ∈ dictInsert acc k v, P e := by
  intro e he
  unfold dictInsert at he
  by_cases hc : acc.any (fun p => p.1 == k) = true
  · rw [if_pos hc] at he
    rcases List.mem_map.mp he with ⟨q, hq, hqe⟩
    by_cases hqk : (q.1 == k) = true
    · rw [if_pos hqk] at hqe
      rw [← hqe]
      exact hkv
    · rw [if_neg hqk] at hqe
      rw [← hqe]
      exact hacc q hq
  · rw [if_neg hc] at he
    rcases List.mem_append.mp he with h1 | h1
    · exact hacc e h1
    · rcases List.mem_singleton.mp h1 with rfl
      exact hkv

theorem clientFold_mem (s : List Char) (idxs : List Nat) (hidx : ∀ i ∈ idxs, i < 14) :
    ∀ (acc : List (String × Nat)),
      (∀ e ∈ acc, 0 < e.2 ∧ ∃ i, i < 14 ∧ clientEntryAt s i = some e) →
      ∀ e ∈ idxs.foldl (fun acc i =>
          match clientEntryAt s i with
          | none => acc
          | some en => if 0 < en.2 then dictInsert acc en.1 en.2 else acc) acc,
        0 < e.2 ∧ ∃ i, i < 14 ∧ clientEntryAt s i = some e := by
  induction idxs with
  | nil =>
    intro acc hacc e he
    exact hacc e he
  | cons i t ih =>
    intro acc hacc e he
    simp only [List.foldl_cons] at he
    refine ih (fun j hj => hidx j (List.mem_cons_of_mem i hj)) _ ?_ e he
    intro e2 he2
    cases hce : clientEntryAt s i with
    | none =>
      simp only [hce] at he2
      exact hacc e2 he2
    | some en =>
      simp only [hce] at he2
      by_cases hpos : 0 < en.2
      · rw [if_pos hpos] at he2
        refine dictInsert_mem _ acc en.1 en.2 hacc ?_ e2 he2
        exact ⟨hpos, i, hidx i (List.mem_cons_self i t), hce⟩
      · rw [if_neg hpos] at he2
        exact hacc e2 he2

/-- C6: every category present in the client-type output maps to a strictly
positive amount, and every present entry is exactly the entry computed for
one of the 14 letter spans; hence a category whose span has no currency
match or parses to amount 0 (in both cases `clientEntryAt` carries amount 0)
never appears in the output mapping. -/
theorem zero_aum_exclusion (text : List Char) (k : String) (v : Nat)
    (h : (k, v) ∈ extractClientTypes text) :
    0 < v ∧ ∃ sectionText, clientSection text = some sectionText ∧
      ∃ i, i < 14 ∧ clientEntryAt sectionText i = some (k, v) := by
  unfold extractClientTypes at h
  cases hs : clientSection text with
  | none =>
    rw [hs] at h
    exact absurd h (List.not_mem_nil _)
  | some s =>
    rw [hs] at h
    have hm := clientFold_mem s (List.range 14)
      (fun i hi => List.mem_range.mp hi) []
      (fun e he => absurd he (List.not_mem_nil e)) (k, v) h
    exact ⟨hm.1, s, rfl, hm.2⟩

/-- C6 witness on the section-8 example text: only category (a) carries a
positive amount, and the output holds exactly that entry. -/
theorem zero_aum_exclusion_witness :
    ("Individuals", 5000000) ∈ extractClientTypes clientDemo ∧
    extractClientTypes clientDemo = [("Individuals", 5000000)] ∧
    (0 < 5000000 ∧ ∃ sectionText, clientSection clientDemo = some sectionText ∧
      ∃ i, i < 14 ∧ clientEntryAt sectionText i = some ("Individuals", 5000000)) := by
  refine ⟨by decide, by decide, ?_⟩
  exact zero_aum_exclusion clientDemo "Individuals" 5000000 (by decide)

/-- C8 counterexample: a text whose recovered components are a domestic
country, a city, a postal code and no region.  The claim mandates that the
postal code be appended to the joined city-region string ("Boston 02101"),
but the code appends it as an independent part, yielding
"Boston, 02101, United States". -/
theorem address_claim_counterexample :
    addrComponent countryToks addrDemo = some "United States" ∧
    addrComponent cityToks addrDemo = some "Boston" ∧
    addrComponent stateToks addrDemo = none ∧
    addrComponent postalToks addrDemo = some "02101" ∧
    addrComponent street1Toks addrDemo = none ∧
    addrComponent street2Toks addrDemo = none ∧
    extract_address addrDemo = some "Boston, 02101, United States" ∧
    ("Boston, 02101, United States" : String) ≠ "Boston 02101, United States" := by
  refine ⟨by rfl, by rfl, by rfl, by rfl, by rfl, by rfl, by rfl, by decide⟩

/-- C8 amended: the composed address joins recovered street lines with the
separator; for a domestic country the city and region are joined and the
postal code is appended (space-separated) to that joined string only when a
region was recovered — with no region the postal code becomes an independent
trailing part; for a non-domestic country the city and the postal code are
independent trailing parts; the country is always appended last when
present; when nothing is recovered the result is absent, never the empty
string. -/
theorem address_assembly_amended :
    (∀ text, extract_address text =
      assembleAddress (addrComponent street1Toks text) (addrComponent street2Toks text)
        (addrComponent cityToks text) (addrComponent stateToks text)
        (addrComponent countryToks text) (addrComponent postalToks text)) ∧
    (∀ street1 street2 city state country postal : Option String,
      assembleAddress street1 street2 city state country postal =
        (let streets := optToList street1 ++ optToList street2
         let base : List String :=
           (if streets.isEmpty then [] else [joinWithComma streets]) ++
           (if country == some "United States" then
              (let cs := optToList city ++ optToList state
               if cs.isEmpty then []
               else if state.isSome && postal.isSome then
                 [joinWithComma cs ++ " " ++ postal.getD ""]
               else [joinWithComma cs])
            else optToList city) ++
           (if postal.isSome && (!(country == some "United States") || state.isNone)
            then [postal.getD ""] else []) ++
           optToList country
         if base.isEmpty then none else some (joinWithComma base))) := by
  constructor
  · intro text
    rfl
  · intro s1 s2 city st ctry pc
    by_cases hus : (ctry == some "United States") = true
    · have hc : ctry = some "United States" := by
        cases ctry with
        | none => simp at hus
        | some c =>
          simp only [Option.some.injEq]
          exact (by simpa using hus : c = "United States")
      subst hc
      cases s1 <;> cases s2 <;> cases city <;> cases st <;> cases pc <;>
        simp [assembleAddress, optToList, joinWithComma, setLastAppend]
    · cases ctry with
      | none =>
        cases s1 <;> cases s2 <;> cases city <;> cases st <;> cases pc <;>
          simp [assembleAddress, optToList, joinWithComma, setLastAppend]
      | some c =>
        have hc : ¬(c = "United States") := by simpa using hus
        cases s1 <;> cases s2 <;> cases city <;> cases st <;> cases pc <;>
          simp [assembleAddress, optToList, joinWithComma, setLastAppend, hc]

/-! ### Capture soundness of the matcher -/

theorem firstSome_eq_some {α β : Type} (f : α → Option β) :
    ∀ (l : List α) (b : β), firstSome f l = some b → ∃ a ∈ l, f a = some b := by
  intro l
  induction l with
  | nil =>
    intro b h
    exact absurd h (by simp [firstSome])
  | cons a as ih =>
    intro b h
    unfold firstSome at h
    cases hfa : f a with
    | some b2 =>
      rw [hfa] at h
      cases h
      exact ⟨a, List.mem_cons_self a as, hfa⟩
    | none =>
      rw [hfa] at h
      rcases ih b h with ⟨x, hx, hfx⟩
      exact ⟨x, List.mem_cons_of_mem a hx, hfx⟩

theorem candLens_mem (a g : Bool) (runLen k : Nat) (h : k ∈ candLens a g runLen) :
    k ≤ runLen ∧ ((if a then 1 else 0) : Nat) ≤ k := by
  unfold candLens at h
  have h2 : k ∈ (List.range (runLen + 1)).filter
      (fun k => decide ((if a then (1 : Nat) else 0) ≤ k)) := by
    cases g with
    | true =>
      rw [if_pos rfl] at h
      exact List.mem_reverse.mp h
    | false =>
      rw [if_neg (by simp)] at h
      exact h
  rcases List.mem_filter.mp h2 with ⟨hr, hc⟩
  have hk : k < runLen + 1 := List.mem_range.mp hr
  exact ⟨by omega, of_decide_eq_true hc⟩

theorem take_sat (p : Char → Bool) (s : List Char) (k : Nat)
    (hk : k ≤ (s.takeWhile p).length) : ∀ c ∈ s.take k, p c = true := by
  intro c hc
  rcases List.takeWhile_prefix p (l := s) with ⟨t, ht⟩
  have hts : s.take k = (s.takeWhile p).take k := by
    conv_lhs => rw [← ht]
    exact List.take_append_of_le_length hk
  rw [hts] at hc
  exact List.mem_takeWhile_imp (List.take_subset k _ hc)

theorem capSpecs_append (x y : List Tok) :
    capSpecs (x ++ y) = capSpecs x ++ capSpecs y := by
  induction x with
  | nil => rfl
  | cons t ts ih =>
    cases t with
    | cls p a g c => cases c <;> simp [capSpecs, ih]
    | lit cs => simpa [capSpecs] using ih
    | litCI cs => simpa [capSpecs] using ih
    | alt2 b1 b2 => simpa [capSpecs] using ih
    | dollar => simpa [capSpecs] using ih
    | eos => simpa [capSpecs] using ih

theorem capSpecs_eq_nil (b : List Tok) (h : toksCapFreeB b = true) :
    capSpecs b = [] := by
  induction b with
  | nil => rfl
  | cons t ts ih =>
    simp only [toksCapFreeB, Bool.and_eq_true] at h
    cases t with
    | cls p a g c =>
      have hc : c = false := by simpa [tokCapFree] using h.1
      subst hc
      simpa [capSpecs] using ih h.2
    | lit cs => simpa [capSpecs] using ih h.2
    | litCI cs => simpa [capSpecs] using ih h.2
    | alt2 b1 b2 => simpa [capSpecs] using ih h.2
    | dollar => simpa [capSpecs] using ih h.2
    | eos => simpa [capSpecs] using ih h.2

theorem toksAltOK_of_capFree (b : List Tok) (h : toksCapFreeB b = true) :
    toksAltOK b = true := by
  induction b with
  | nil => rfl
  | cons t ts ih =>
    simp only [toksCapFreeB, Bool.and_eq_true] at h
    simp only [toksAltOK, Bool.and_eq_true]
    refine ⟨?_, ih h.2⟩
    cases t with
    | alt2 b1 b2 =>
      have h1 := h.1
      simp only [tokCapFree] at h1
      simp only [tokAltOK]
      exact h1
    | cls p a g c => rfl
    | lit cs => rfl
    | litCI cs => rfl
    | dollar => rfl
    | eos => rfl

theorem toksAltOK_append (x y : List Tok) :
    toksAltOK (x ++ y) = (toksAltOK x && toksAltOK y) := by
  induction x with
  | nil => simp [toksAltOK]
  | cons t ts ih => simp [toksAltOK, ih, Bool.and_assoc]

theorem matchFuel_caps :
    ∀ (fuel : Nat) (toks : List Tok), toksAltOK toks = true →
      ∀ (s : List Char) (gs : List (List Char)) (rem : List Char),
        matchFuel fuel toks s = some (gs, rem) → GroupsMatch (capSpecs toks) gs := by
  intro fuel
  induction fuel with
  | zero =>
    intro toks hok s gs rem h
    cases toks with
    | nil =>
      simp only [matchFuel] at h
      cases h
      exact List.Forall₂.nil
    | cons t ts => exact absurd h (by simp [matchFuel])
  | succ n ih =>
    intro toks hok s gs rem h
    cases toks with
    | nil =>
      simp only [matchFuel] at h
      cases h
      exact List.Forall₂.nil
    | cons t ts =>
      have hok2 : tokAltOK t = true ∧ toksAltOK ts = true := by
        simpa [toksAltOK, Bool.and_eq_true] using hok
      cases t with
      | lit cs =>
        simp only [matchFuel] at h
        by_cases hpre : cs.isPrefixOf s = true
        · rw [if_pos hpre] at h
          simpa [capSpecs] using ih ts hok2.2 _ _ _ h
        · rw [if_neg hpre] at h
          exact absurd h (by simp)
      | litCI cs =>
        simp only [matchFuel] at h
        by_cases hpre : isPrefixCI cs s = true
        · rw [if_pos hpre] at h
          simpa [capSpecs] using ih ts hok2.2 _ _ _ h
        · rw [if_neg hpre] at h
          exact absurd h (by simp)
      | dollar =>
        simp only [matchFuel] at h
        by_cases hd : s = [] ∨ s = ['\n']
        · rw [if_pos hd] at h
          simpa [capSpecs] using ih ts hok2.2 _ _ _ h
        · rw [if_neg hd] at h
          exact absurd h (by simp)
      | eos =>
        simp only [matchFuel] at h
        by_cases hd : s = []
        · rw [if_pos hd] at h
          simpa [capSpecs] using ih ts hok2.2 _ _ _ h
        · rw [if_neg hd] at h
          exact absurd h (by simp)
      | alt2 b1 b2 =>
        simp only [matchFuel] at h
        have hcf : toksCapFreeB b1 = true ∧ toksCapFreeB b2 = true := by
          have h1 := hok2.1
          simpa [tokAltOK, Bool.and_eq_true] using h1
        cases h1 : matchFuel n (b1 ++ ts) s with
        | some r =>
          rw [h1] at h
          have hr : r = (gs, rem) := by injection h
          subst hr
          have hok1 : toksAltOK (b1 ++ ts) = true := by
            rw [toksAltOK_append]
            simp [toksAltOK_of_capFree b1 hcf.1, hok2.2]
          have hm := ih (b1 ++ ts) hok1 _ _ _ h1
          rw [capSpecs_append, capSpecs_eq_nil b1 hcf.1] at hm
          simpa [capSpecs] using hm
        | none =>
          rw [h1] at h
          have hok1 : toksAltOK (b2 ++ ts) = true := by
            rw [toksAltOK_append]
            simp [toksAltOK_of_capFree b2 hcf.2, hok2.2]
          have hm := ih (b2 ++ ts) hok1 _ _ _ h
          rw [capSpecs_append, capSpecs_eq_nil b2 hcf.2] at hm
          simpa [capSpecs] using hm
      | cls p a g c =>
        simp only [matchFuel] at h
        rcases firstSome_eq_some _ _ _ h with ⟨k, hkmem, hfk⟩
        rcases candLens_mem a g _ k hkmem with ⟨hkrun, hklow⟩
        cases h2 : matchFuel n ts (s.drop k) with
        | none =>
          rw [h2] at hfk
          exact absurd hfk (by simp)
        | some pr =>
          rw [h2] at hfk
          have hrest := ih ts hok2.2 (s.drop k) pr.1 pr.2 (by rw [h2])
          have hfk2 : ((if c then s.take k :: pr.1 else pr.1), pr.2) = (gs, rem) := by
            injection hfk
          have hgs : gs = if c then s.take k :: pr.1 else pr.1 := by
            have := congrArg Prod.fst hfk2
            simpa using this.symm
          subst hgs
          cases c with
          | true =>
            show GroupsMatch ((p, a) :: capSpecs ts) (s.take k :: pr.1)
            refine List.Forall₂.cons ⟨take_sat p s k hkrun, ?_⟩ hrest
            intro ha
            subst ha
            have h1k : 1 ≤ k := by simpa using hklow
            have hrunlen : (s.takeWhile p).length ≤ s.length :=
              (List.takeWhile_prefix p).length_le
            intro hnil
            have := congrArg List.length hnil
            simp only [List.length_take, List.length_nil] at this
            omega
          | false =>
            show GroupsMatch (capSpecs ts) pr.1
            exact hrest

theorem searchToks_caps (toks : List Tok) (hok : toksAltOK toks = true) :
    ∀ (s : List Char) (gs : List (List Char)) (rem : List Char),
      searchToks toks s = some (gs, rem) → GroupsMatch (capSpecs toks) gs := by
  intro s
  induction s with
  | nil =>
    intro gs rem h
    simp only [searchToks] at h
    exact matchFuel_caps _ toks hok _ _ _ h
  | cons ch s2 ih =>
    intro gs rem h
    simp only [searchToks] at h
    cases h1 : matchToks toks (ch :: s2) with
    | some r =>
      rw [h1] at h
      have hr : r = (gs, rem) := by injection h
      subst hr
      exact matchFuel_caps _ toks hok _ _ _ h1
    | none =>
      rw [h1] at h
      exact ih gs rem h

theorem searchAllFuel_caps (toks : List Tok) (hok : toksAltOK toks = true) :
    ∀ (fuel : Nat) (s : List Char) (gs : List (List Char)),
      gs ∈ searchAllFuel fuel toks s → GroupsMatch (capSpecs toks) gs := by
  intro fuel
  induction fuel with
  | zero =>
    intro s gs h
    exact absurd h (by simp [searchAllFuel])
  | succ n ih =>
    intro s gs h
    simp only [searchAllFuel] at h
    cases h1 : searchToks toks s with
    | none =>
      rw [h1] at h
      exact absurd h (List.not_mem_nil gs)
    | some r =>
      obtain ⟨gs0, rem0⟩ := r
      simp only [h1] at h
      by_cases hlen : rem0.length < s.length
      · rw [if_pos hlen] at h
        rcases List.mem_cons.mp h with hh | hh
        · subst hh
          exact searchToks_caps toks hok s gs rem0 h1
        · exact ih rem0 gs hh
      · rw [if_neg hlen] at h
        have hgs := List.mem_singleton.mp h
        subst hgs
        exact searchToks_caps toks hok s gs rem0 h1

/-! ### Private-fund claim support -/

theorem fundFold_mem (gss : List (List (List Char)))
    (hall : ∀ gs ∈ gss, GroupsMatch [(notNL, true), (Char.isDigit, true)] gs) :
    ∀ (acc : List (String × String)), (∀ e ∈ acc, is805Id e.2) →
      ∀ e ∈ gss.foldl (fun acc gs =>
          match gs with
          | [nameG, idDigits] =>
            dictInsert acc (⟨pyStripList nameG⟩ : String) ("805-" ++ (⟨idDigits⟩ : String))
          | _ => acc) acc,
        is805Id e.2 := by
  induction gss with
  | nil =>
    intro acc hacc e he
    exact hacc e he
  | cons gs t ih =>
    intro acc hacc e he
    simp only [List.foldl_cons] at he
    refine ih (fun g hg => hall g (List.mem_cons_of_mem gs hg)) _ ?_ e he
    intro e2 he2
    rcases gs with _ | ⟨nameG, _ | ⟨idDigits, _ | ⟨x, xs⟩⟩⟩
    · exact hacc e2 he2
    · exact hacc e2 he2
    · have hgm := hall [nameG, idDigits] (List.mem_cons_self _ t)
      have hgm2 : List.Forall₂
          (fun (sp : (Char → Bool) × Bool) (g : List Char) =>
            (∀ c ∈ g, sp.1 c = true) ∧ (sp.2 = true → g ≠ []))
          [(notNL, true), (Char.isDigit, true)] [nameG, idDigits] := hgm
      rcases hgm2 with _ | ⟨h1, hrest⟩
      rcases hrest with _ | ⟨h2, -⟩
      have hid : is805Id ("805-" ++ (⟨idDigits⟩ : String)) :=
        ⟨idDigits, h2.2 rfl, h2.1, rfl⟩
      exact dictInsert_mem _ acc _ _ hacc hid e2 he2
    · exact hacc e2 he2

theorem extractPrivateFunds_ids_805 (text : List Char) (name id : String)
    (hmem : (name, id) ∈ extractPrivateFunds text) : is805Id id := by
  unfold extractPrivateFunds at hmem
  have hall : ∀ gs ∈ searchAll toksFund text,
      GroupsMatch [(notNL, true), (Char.isDigit, true)] gs := by
    intro gs hgs
    exact searchAllFuel_caps toksFund (by rfl) _ _ _ hgs
  exact fundFold_mem (searchAll toksFund text) hall []
    (fun e he => absurd he (List.not_mem_nil e)) (name, id) hmem

theorem writeFirm_fund_ids (db : DBState) (crd : Int) (r : FirmRecord)
    (db1 : DBState) (row : FundRow) (hw : writeFirm db crd r = .ok db1)
    (hrow : row ∈ fundRowsFor db1 crd) :
    row.2.2 ∈ (r.private_funds.getD []).map Prod.snd := by
  rcases writeFirm_ok_elim db crd r db1 hw with ⟨-, -, -, hp1⟩
  unfold fundRowsFor at hrow
  rw [hp1] at hrow
  rw [filter_key_replaceAll _ _ crd
    (by intro x hx; rcases List.mem_map.mp hx with ⟨q, -, hq⟩; simp [← hq])] at hrow
  rcases List.mem_map.mp hrow with ⟨q, hq, hqe⟩
  subst hqe
  exact List.mem_map.mpr ⟨q, hq, rfl⟩

/-- C9: every private-fund identifier produced by the extractor is the
literal `805-` followed by digits; the sink's write path persists exactly the
input identifiers for the entity; hence when the record's private-fund
mapping is an extractor output, every persisted fund identifier matches the
pattern as well. -/
theorem private_fund_id_format :
    (∀ (text : List Char) (name id : String),
      (name, id) ∈ extractPrivateFunds text → is805Id id) ∧
    (∀ (db : DBState) (crd : Int) (r : FirmRecord) (db1 : DBState) (row : FundRow),
      writeFirm db crd r = .ok db1 → row ∈ fundRowsFor db1 crd →
      row.2.2 ∈ (r.private_funds.getD []).map Prod.snd) ∧
    (∀ (text : List Char) (db : DBState) (crd : Int) (r : FirmRecord)
        (db1 : DBState) (row : FundRow),
      r.private_funds = some (extractPrivateFunds text) →
      writeFirm db crd r = .ok db1 → row ∈ fundRowsFor db1 crd →
      is805Id row.2.2) := by
  refine ⟨extractPrivateFunds_ids_805, writeFirm_fund_ids, ?_⟩
  intro text db crd r db1 row hpf hw hrow
  have hin := writeFirm_fund_ids db crd r db1 row hw hrow
  rw [hpf] at hin
  simp only [Option.getD_some] at hin
  rcases List.mem_map.mp hin with ⟨q, hq, hqe⟩
  rw [← hqe]
  exact extractPrivateFunds_ids_805 text q.1 q.2 hq

/-- C9 witness: one extracted fund entry, written through the sink. -/
theorem private_fund_id_format_witness :
    (("ABC Fund", "805-123") ∈ extractPrivateFunds fundDemo) ∧
    is805Id "805-123" ∧
    writeFirm ⟨[], [], [], []⟩ 1
      ⟨⟨none, none, none, none, none, none, none⟩, none, none,
        some [("ABC Fund", "805-123")]⟩ =
      .ok ⟨[(1, ⟨none, none, none, none, none, none, none⟩)], [], [],
        [(1, "ABC Fund", "805-123")]⟩ ∧
    ((1, "ABC Fund", "805-123") : FundRow) ∈
      fundRowsFor ⟨[(1, ⟨none, none, none, none, none, none, none⟩)], [], [],
        [(1, "ABC Fund", "805-123")]⟩ 1 ∧
    (((⟨⟨none, none, none, none, none, none, none⟩, none, none,
        some [("ABC Fund", "805-123")]⟩ : FirmRecord).private_funds =
      some (extractPrivateFunds fundDemo)) ∧
    is805Id (((1, "ABC Fund", "805-123") : FundRow)).2.2) := by
  refine ⟨by decide, ?_, by rfl, by decide, by decide, ?_⟩
  · exact private_fund_id_format.1 fundDemo "ABC Fund" "805-123" (by decide)
  · exact private_fund_id_format.2.2 fundDemo ⟨[], [], [], []⟩ 1
      ⟨⟨none, none, none, none, none, none, none⟩, none, none,
        some [("ABC Fund", "805-123")]⟩
      ⟨[(1, ⟨none, none, none, none, none, none, none⟩)], [], [],
        [(1, "ABC Fund", "805-123")]⟩
      (1, "ABC Fund", "805-123")
      (by decide) (by rfl) (by decide)

end MLP

